import Mathlib

/-!
Verification of the network roles of the CSSE2310 repository
(src/ass4): the mapper (Registry), control (Service Node) and roc
(Itinerant Client) programs.

C strings are modelled as `List Char`; each Lean definition below is a
shallow embedding of the C function of the same name.  Server state is
passed explicitly: the mapper's table (`struct Mapping`) is a
`List MapEntry`, the control's visit log (`struct Visitors`) a
`List (List Char)`, and one processed command line is a function from
state and input line to new state and the bytes written back to the
client.
-/

namespace CSSE2310

/-! ### Definitions: shallow embedding of the C sources -/

/-! ## util.c -/

/-- `trim_newline` (util.c): the first newline character is turned into a
terminator, cutting the string there; a string with no newline is kept
unchanged. -/
def trim_newline : List Char → List Char
  | [] => []
  | c :: cs => if c = '\n' then [] else c :: trim_newline cs

/-- `count_occurrences` (util.c): how many positions of `string` hold a
character that appears in `occurrences`. -/
def count_occurrences (string occurrences : List Char) : Nat :=
  string.countP (fun c => occurrences.contains c)

/-- `is_numeric` (util.c): every character is a decimal digit (vacuously
true for the empty string, exactly as the C loop). -/
def is_numeric (string : List Char) : Bool :=
  string.all Char.isDigit

/-- The numeric value `atoi` computes on an all-digit string (the only
inputs `is_unsigned_short` feeds it). -/
def atoiNum (string : List Char) : Nat :=
  string.foldl (fun acc c => acc * 10 + (c.toNat - '0'.toNat)) 0

/-- `USHRT_MAX` from limits.h. -/
def USHRT_MAX : Nat := 65535

/-- `is_unsigned_short` (util.c): numeric and with value in
`(0, USHRT_MAX]`. -/
def is_unsigned_short (string : List Char) : Bool :=
  is_numeric string && decide (0 < atoiNum string) &&
    decide (atoiNum string ≤ USHRT_MAX)

/-! ## strcmp order on strings

`strcmp` compares byte by byte with the terminator as the least byte, so
on our char lists it is the lexicographic strict order below. -/

/-- `strcmp a b < 0`: `a` is strictly lexicographically below `b`. -/
def strLt : List Char → List Char → Bool
  | [], [] => false
  | [], _ :: _ => true
  | _ :: _, [] => false
  | a :: as, b :: bs => if a = b then strLt as bs else decide (a < b)

/-- `strcmp a b > 0`, the swap condition of both bubble sorts. -/
def strGt (a b : List Char) : Bool := strLt b a

/-- The non-strict order under which both sorted listings are emitted. -/
def strLe (a b : List Char) : Prop := strLt b a = false

/-! ## The in-place bubble sort shared by `sort_mapping` (mapper2310.c)
and `sort_visitors` (control2310.c)

Both C functions run
`for i: for j > i: if (strcmp(key a[i], key a[j]) > 0) swap(a[i], a[j])`.
One inner loop (over `j`) keeps the running minimum at slot `i` and drops
the displaced value into slot `j`; `bubblePass` is that inner loop, with
the slot-`i` value passed explicitly, and `exchangeSort` the outer loop. -/

/-- Inner loop of the bubble sort: the current slot-`i` value `x` sweeps
the tail; whenever `strcmp > 0` the two values swap. Returns the final
slot-`i` value and the rewritten tail. -/
def bubblePass (key : α → List Char) : α → List α → α × List α
  | x, [] => (x, [])
  | x, y :: ys =>
    if strGt (key x) (key y) then
      ((bubblePass key y ys).1, x :: (bubblePass key y ys).2)
    else
      ((bubblePass key x ys).1, y :: (bubblePass key x ys).2)

/-- Outer loop of the bubble sort: fix slot `i`, run the inner pass on
the tail, recurse on the rewritten tail.  The `fuel` argument counts the
remaining outer iterations; the C loop runs exactly `length` of them, so
`exchangeSort` below instantiates `fuel` with the list length and the
`fuel = 0` fallback is never reached. -/
def exchangeSortFuel (key : α → List Char) : Nat → List α → List α
  | _, [] => []
  | 0, l => l
  | fuel + 1, x :: xs =>
    (bubblePass key x xs).1 ::
      exchangeSortFuel key fuel (bubblePass key x xs).2

/-- The whole double loop of `sort_mapping`/`sort_visitors`. -/
def exchangeSort (key : α → List Char) (l : List α) : List α :=
  exchangeSortFuel key l.length l

/-! ## mapper2310.c : the Registry -/

/-- `MAX_MAP_ENTRIES` (mapper2310.h): capacity malloc'd for the table. -/
def MAX_MAP_ENTRIES : Nat := 1000

/-- `MapEntry` (mapper2310.h): one name → port mapping. -/
structure MapEntry where
  airportName : List Char
  portNumber : List Char
deriving DecidableEq

/-- `struct Mapping` (mapper2310.h): the table, in internal array order;
`entryCount` is the list length. -/
abbrev Mapping := List MapEntry

/-- The `Command` enum of mapper2310.h. -/
inductive MapperCommand
  | LIST_MAPPINGS
  | QUERY_MAPPING
  | ADD_MAPPING
  | UNKNOWN_COMMAND
deriving DecidableEq

/-- `command_lexer` (mapper2310.c).  The C function first trims the
buffer in place (`trim_newline`) and then classifies it; index `1` and
the last index are read through `get?`/`getLast?`, which return `none`
exactly where the C code would read the terminator. -/
def mapper_command_lexer (commandString : List Char) : MapperCommand :=
  let s := trim_newline commandString
  if s = ['@'] then MapperCommand.LIST_MAPPINGS
  else if s.head? = some '?' then MapperCommand.QUERY_MAPPING
  else if s.head? = some '!' ∧ count_occurrences s [':'] = 1 ∧
      3 < s.length ∧ s.get? 1 ≠ some ':' ∧ s.getLast? ≠ some ':' ∧
      count_occurrences s ['\r', '\n'] = 0 then MapperCommand.ADD_MAPPING
  else MapperCommand.UNKNOWN_COMMAND

/-- `name_index_in_mapping` (mapper2310.c): index of the first entry
whose `airportName` matches, `none` for `ENTRY_NOT_FOUND`. -/
def name_index_in_mapping : Mapping → List Char → Option Nat
  | [], _ => none
  | entry :: rest, airportName =>
    if airportName = entry.airportName then some 0
    else (name_index_in_mapping rest airportName).map (· + 1)

/-- `add_map_entry` (mapper2310.c), applied to the trimmed command
string (which starts with `!`).  The two `strtok(_, ":")` calls are the
`takeWhile`/`dropWhile` splits at the first `:` of the payload. -/
def add_map_entry (mapping : Mapping) (commandString : List Char) : Mapping :=
  let body := commandString.drop 1
  let airportName := body.takeWhile (fun c => c ≠ ':')
  let portNumber :=
    ((body.dropWhile (fun c => c ≠ ':')).drop 1).takeWhile (fun c => c ≠ ':')
  if is_unsigned_short portNumber = false then mapping
  else if name_index_in_mapping mapping airportName = none then
    mapping ++ [⟨airportName, portNumber⟩]
  else mapping

/-- `print_queried_mapping` (mapper2310.c): the bytes written back for a
query command (already trimmed, starting with `?`).  The C code indexes
`entries[entryIndex]` with the index `name_index_in_mapping` returned,
which is always in bounds; `getD` with a dummy default models that
access. -/
def print_queried_mapping (mapping : Mapping) (commandString : List Char) :
    List Char :=
  let searchString := commandString.drop 1
  match name_index_in_mapping mapping searchString with
  | some entryIndex =>
    (mapping.getD entryIndex ⟨[], []⟩).portNumber ++ ['\n']
  | none => [';', '\n']

/-- `sort_mapping` (mapper2310.c): in-place bubble sort of the table by
`strcmp` on `airportName`. -/
def sort_mapping (mapping : Mapping) : Mapping :=
  exchangeSort (fun e => e.airportName) mapping

/-- The bytes the `print_mappings` loop emits for a table in its current
order: each entry as `name:port` followed by a newline. -/
def render_mappings : Mapping → List Char
  | [] => []
  | e :: rest => e.airportName ++ [':'] ++ e.portNumber ++ ['\n'] ++
      render_mappings rest

/-- `print_mappings` (mapper2310.c): sorts the table in place, then
emits every entry of the (now sorted) table.  Result: the table as the
function leaves it, and the bytes written to the client. -/
def print_mappings (mapping : Mapping) : Mapping × List Char :=
  (sort_mapping mapping, render_mappings (sort_mapping mapping))

/-- One iteration of the mapper's `command_listener` loop (mapper2310.c)
on one received line, under the lock: classify the line, dispatch, and
return the new table together with the bytes sent back. -/
def mapper_process (mapping : Mapping) (line : List Char) :
    Mapping × List Char :=
  let s := trim_newline line
  match mapper_command_lexer line with
  | MapperCommand.LIST_MAPPINGS => print_mappings mapping
  | MapperCommand.QUERY_MAPPING => (mapping, print_queried_mapping mapping s)
  | MapperCommand.ADD_MAPPING => (add_map_entry mapping s, [])
  | MapperCommand.UNKNOWN_COMMAND => (mapping, [])

/-- The table after the mapper has processed a whole sequence of
command lines (in lock-acquisition order). -/
def mapper_run (mapping : Mapping) : List (List Char) → Mapping
  | [] => mapping
  | line :: rest => mapper_run (mapper_process mapping line).1 rest

/-! ## control2310.c : the Service Node -/

/-- `MAX_VISITOR_ENTRIES` (control2310.h): capacity malloc'd for the
visit log. -/
def MAX_VISITOR_ENTRIES : Nat := 1000

/-- `struct Visitors` (control2310.h): the visit log in internal array
order; each element is one `VisitorEntry.aircraftID`, `visitorCount` is
the list length. -/
abbrev Visitors := List (List Char)

/-- The `Command` enum of control2310.h. -/
inductive ControlCommand
  | LOG_COMMAND
  | RECORD_VISIT_SEND_INFO
deriving DecidableEq

/-- `command_lexer` (control2310.c): trim the line; `log` is the log
command, everything else records a visit. -/
def control_command_lexer (commandString : List Char) : ControlCommand :=
  if trim_newline commandString = ['l', 'o', 'g'] then
    ControlCommand.LOG_COMMAND
  else ControlCommand.RECORD_VISIT_SEND_INFO

/-- `record_visit` (control2310.c): append the (trimmed) line as a new
visitor entry, duplicates included, at index `visitorCount`. -/
def record_visit (visitors : Visitors) (commandString : List Char) :
    Visitors :=
  visitors ++ [commandString]

/-- `sort_visitors` (control2310.c): in-place bubble sort of the log by
`strcmp` on the recorded IDs. -/
def sort_visitors (visitors : Visitors) : Visitors :=
  exchangeSort (fun v => v) visitors

/-- The bytes the `print_all_visitors` loop emits for a log in its
current order: every ID followed by a newline, then the terminator
line `.`. -/
def render_visitors : Visitors → List Char
  | [] => ['.', '\n']
  | v :: rest => v ++ ['\n'] ++ render_visitors rest

/-- `print_all_visitors` (control2310.c): sorts the log in place, then
emits every entry of the (now sorted) log followed by `.\n`. -/
def print_all_visitors (visitors : Visitors) : Visitors × List Char :=
  (sort_visitors visitors, render_visitors (sort_visitors visitors))

/-- One iteration of the control's `command_listener` loop
(control2310.c) on one received line, under the lock. -/
def control_process (airportInfo : List Char) (visitors : Visitors)
    (line : List Char) : Visitors × List Char :=
  let s := trim_newline line
  match control_command_lexer line with
  | ControlCommand.LOG_COMMAND => print_all_visitors visitors
  | ControlCommand.RECORD_VISIT_SEND_INFO =>
    (record_visit visitors s, airportInfo ++ ['\n'])

/-- The log after the control has processed a whole sequence of command
lines (in lock-acquisition order). -/
def control_run (airportInfo : List Char) (visitors : Visitors) :
    List (List Char) → Visitors
  | [] => visitors
  | line :: rest =>
    control_run airportInfo (control_process airportInfo visitors line).1 rest

/-! ## roc2310.c : the Itinerant Client

The client's network peers are modelled as oracles: `queryReply name`
is the mapper's reply line to `?name` (`none` when `fgets` gets no
line), `mapperConnects` whether `connect_to_port(mapperPort)` succeeds,
and `visitReply i` the info line received from destination slot `i`
(`none` when the connection to that slot fails). -/

/-- The `RocError` enum of error.h. -/
inductive RocError
  | ROC_NORMAL_OPERATION
  | ROC_INVALID_ARG_COUNT
  | ROC_INVALID_MAPPER_PORT
  | ROC_REQUIRE_MAPPER
  | ROC_ERROR_CONNECTING_MAPPER
  | ROC_CANNOT_RESOLVE_PORT
  | ROC_FAILED_TO_CONNECT
deriving DecidableEq

/-- The per-destination loop of `resolve_destinations` (roc2310.c):
destinations that already look like port numbers are skipped; for the
others the mapper is queried, the trimmed reply overwrites the slot
(also when the reply is the `;` sentinel), and `allResolved` is cleared
on a missing reply or a `;` reply.  Returns the rewritten destination
array and the final `allResolved`. -/
def resolve_loop (queryReply : List Char → Option (List Char)) :
    List (List Char) → List (List Char) × Bool
  | [] => ([], true)
  | d :: rest =>
    if is_unsigned_short d then
      ((resolve_loop queryReply rest).1.cons d,
       (resolve_loop queryReply rest).2)
    else
      match queryReply d with
      | some response =>
        ((resolve_loop queryReply rest).1.cons (trim_newline response),
         (resolve_loop queryReply rest).2 &&
           !(decide (trim_newline response = [';'])))
      | none =>
        ((resolve_loop queryReply rest).1.cons d, false)

/-- `resolve_destinations` (roc2310.c): connect to the mapper (error if
that fails), run the per-destination loop, and map `allResolved` to the
returned `RocError`.  The result also carries the rewritten destination
array, which the C code mutates in place. -/
def resolve_destinations (mapperConnects : Bool)
    (queryReply : List Char → Option (List Char))
    (destinations : List (List Char)) : List (List Char) × RocError :=
  if mapperConnects = false then
    (destinations, RocError.ROC_ERROR_CONNECTING_MAPPER)
  else if (resolve_loop queryReply destinations).2 = false then
    ((resolve_loop queryReply destinations).1,
     RocError.ROC_CANNOT_RESOLVE_PORT)
  else
    ((resolve_loop queryReply destinations).1, RocError.ROC_NORMAL_OPERATION)

/-- The loop of `visit_destinations` (roc2310.c) from slot `i` on: a
slot whose connection fails stores `NULL` and clears `visitingSuccess`;
otherwise the trimmed reply is stored.  Returns the `destinationInfo`
array and the final `visitingSuccess`. -/
def visit_loop (visitReply : Nat → Option (List Char)) (i : Nat) :
    List (List Char) → List (Option (List Char)) × Bool
  | [] => ([], true)
  | _ :: rest =>
    match visitReply i with
    | none => ((visit_loop visitReply (i + 1) rest).1.cons none, false)
    | some response =>
      ((visit_loop visitReply (i + 1) rest).1.cons
        (some (trim_newline response)),
       (visit_loop visitReply (i + 1) rest).2)

/-- `visit_destinations` (roc2310.c). -/
def visit_destinations (visitReply : Nat → Option (List Char))
    (destinations : List (List Char)) :
    List (Option (List Char)) × Bool :=
  visit_loop visitReply 0 destinations

/-- `print_destination_info` (roc2310.c): the per-slot results in
original order, skipping the `NULL` slots of failed connections. -/
def print_destination_info : List (Option (List Char)) → List Char
  | [] => []
  | none :: rest => print_destination_info rest
  | some info :: rest => info ++ ['\n'] ++ print_destination_info rest

/-- What a roc run produces: the bytes printed to stdout for visited
destinations, and the exit status. -/
structure RocOutcome where
  output : List Char
  status : RocError
deriving DecidableEq

/-- `main` (roc2310.c) after argument splitting: the mapper port `-`
means no mapper; a specified mapper port must be a port number; a
non-port destination makes a mapper mandatory; resolution failure
(`ROC_ERROR_CONNECTING_MAPPER` or `ROC_CANNOT_RESOLVE_PORT`) returns
that error before any destination is visited; otherwise every
destination is visited in order and the collected info is printed, with
status `ROC_FAILED_TO_CONNECT` when at least one connection failed.
The identity line sent to each destination does not influence the
modelled reply oracles. -/
def roc_main (mapperConnects : Bool)
    (queryReply : List Char → Option (List Char))
    (visitReply : Nat → Option (List Char))
    (mapperPort : List Char) (destinations : List (List Char)) :
    RocOutcome :=
  let mapperSpecified := mapperPort ≠ ['-']
  let mapperRequired := destinations.any (fun d => !(is_unsigned_short d))
  if mapperSpecified ∧ is_unsigned_short mapperPort = false then
    ⟨[], RocError.ROC_INVALID_MAPPER_PORT⟩
  else if ¬ mapperSpecified ∧ mapperRequired = true then
    ⟨[], RocError.ROC_REQUIRE_MAPPER⟩
  else
    let afterResolve :=
      if mapperRequired = true then
        resolve_destinations mapperConnects queryReply destinations
      else (destinations, RocError.ROC_NORMAL_OPERATION)
    if afterResolve.2 ≠ RocError.ROC_NORMAL_OPERATION then
      ⟨[], afterResolve.2⟩
    else
      let visited := visit_destinations visitReply afterResolve.1
      ⟨print_destination_info visited.1,
       if visited.2 then RocError.ROC_NORMAL_OPERATION
       else RocError.ROC_FAILED_TO_CONNECT⟩

/-! ## Wire-format helpers and parsing lemmas -/

/-- The wire form `!name:address\n` of an add command, exactly as
`report_to_mapper` (control2310.c) sends it. -/
def add_line (n a : List Char) : List Char :=
  '!' :: (n ++ ':' :: (a ++ ['\n']))

/-- The wire form `?name\n` of a query command, exactly as
`resolve_destinations` (roc2310.c) sends it. -/
def query_line (n : List Char) : List Char := '?' :: (n ++ ['\n'])

/-- The wire form `@\n` of a list command. -/
def list_line : List Char := ['@', '\n']

/-- The name an add command's payload carries: what the first
`strtok(_, ":")` of `add_map_entry` extracts from the trimmed line. -/
def add_line_name (line : List Char) : List Char :=
  ((trim_newline line).drop 1).takeWhile (fun c => c ≠ ':')

/-- Well-formedness of the pieces of an add command, as the lexer
requires them: a nonempty name free of `:`, CR and LF, and a
syntactically valid port number. -/
def wf_add_parts (n a : List Char) : Prop :=
  n ≠ [] ∧ ':' ∉ n ∧ '\r' ∉ n ∧ '\n' ∉ n ∧ is_unsigned_short a = true

/-! ## Table invariants preserved by every processed command -/

/-- Exactly one table entry is named `n`, and it maps to `a`. -/
def MapsTo (m : Mapping) (n a : List Char) : Prop :=
  m.countP (fun e => decide (n = e.airportName)) = 1 ∧
  ∀ e ∈ m, n = e.airportName → e.portNumber = a

/-- No table entry is named `n`. -/
def Absent (m : Mapping) (n : List Char) : Prop :=
  ∀ e ∈ m, n ≠ e.airportName

/-- Whether a line is an add command that inserts the name `n`. -/
def AddsName (line n : List Char) : Prop :=
  mapper_command_lexer line = MapperCommand.ADD_MAPPING ∧
  add_line_name line = n

instance decidableAddsName (line n : List Char) : Decidable (AddsName line n) :=
  inferInstanceAs (Decidable (_ ∧ _))

/-- The table's names are pairwise distinct. -/
def NamesNodup (m : Mapping) : Prop :=
  m.Pairwise (fun e1 e2 => e1.airportName ≠ e2.airportName)

/-- The wire form `log\n` of a log command. -/
def log_line : List Char := ['l', 'o', 'g', '\n']

/-! ## Capacity-checked array writes

`handle_connections` allocates `entries` once, for `MAX_MAP_ENTRIES`
(resp. `MAX_VISITOR_ENTRIES`) elements, and the accepted branches of
`add_map_entry` and `record_visit` write `entries[entryCount]` (resp.
`entries[visitorCount]`) without comparing the count to the capacity.
The two definitions below are those functions with the array write
modelled at its real allocation size: the write is defined (`some`)
exactly when the index is below the capacity, and `none` stands for the
out-of-bounds write the C code would perform. -/

/-- `add_map_entry` with `entries[entryCount] = newEntry` bounds-checked
against the `MAX_MAP_ENTRIES`-element allocation. -/
def add_map_entry_checked (mapping : Mapping) (commandString : List Char) :
    Option Mapping :=
  let body := commandString.drop 1
  let airportName := body.takeWhile (fun c => c ≠ ':')
  let portNumber :=
    ((body.dropWhile (fun c => c ≠ ':')).drop 1).takeWhile (fun c => c ≠ ':')
  if is_unsigned_short portNumber = false then some mapping
  else if name_index_in_mapping mapping airportName = none then
    if mapping.length < MAX_MAP_ENTRIES then
      some (mapping ++ [⟨airportName, portNumber⟩])
    else none
  else some mapping

/-- `record_visit` with `entries[visitorCount] = newVisitor`
bounds-checked against the `MAX_VISITOR_ENTRIES`-element allocation. -/
def record_visit_checked (visitors : Visitors) (commandString : List Char) :
    Option Visitors :=
  if visitors.length < MAX_VISITOR_ENTRIES then
    some (visitors ++ [commandString])
  else none

/-! ### Theorems -/

theorem strLt_irrefl (a : List Char) : strLt a a = false := by
  induction a with
  | nil => rfl
  | cons c cs ih => simp [strLt, ih]

theorem strLt_asymm {a b : List Char} (h : strLt a b = true) :
    strLt b a = false := by
  induction a generalizing b with
  | nil => cases b with
    | nil => simp [strLt] at h
    | cons d ds => simp [strLt]
  | cons c cs ih => cases b with
    | nil => simp [strLt] at h
    | cons d ds =>
      by_cases hcd : c = d
      · subst hcd
        simp only [strLt, if_pos rfl] at h ⊢
        exact ih h
      · simp only [strLt, if_neg hcd, decide_eq_true_eq] at h
        have hdc : ¬ d = c := fun hh => hcd hh.symm
        simp only [strLt, if_neg hdc, decide_eq_false_iff_not]
        exact not_lt_of_lt h

theorem strLt_trans {a b c : List Char} (hab : strLt a b = true)
    (hbc : strLt b c = true) : strLt a c = true := by
  induction a generalizing b c with
  | nil => cases c with
    | nil =>
      cases b with
      | nil => simp [strLt] at hab
      | cons d ds => simp [strLt] at hbc
    | cons e es => simp [strLt]
  | cons x xs ih =>
    cases b with
    | nil => simp [strLt] at hab
    | cons y ys =>
      cases c with
      | nil => simp [strLt] at hbc
      | cons z zs =>
        by_cases hxy : x = y
        · subst hxy
          simp only [strLt, if_pos rfl] at hab
          by_cases hyz : x = z
          · subst hyz
            simp only [strLt, if_pos rfl] at hbc ⊢
            exact ih hab hbc
          · simp only [strLt, if_neg hyz] at hbc ⊢
            exact hbc
        · simp only [strLt, if_neg hxy, decide_eq_true_eq] at hab
          by_cases hyz : y = z
          · subst hyz
            simp only [strLt, if_neg hxy, decide_eq_true_eq]
            exact hab
          · simp only [strLt, if_neg hyz, decide_eq_true_eq] at hbc
            have hxz : x < z := lt_trans hab hbc
            have hne : ¬ x = z := ne_of_lt hxz
            simp only [strLt, if_neg hne, decide_eq_true_eq]
            exact hxz

theorem strLt_connex {a b : List Char} (h : a ≠ b) :
    strLt a b = true ∨ strLt b a = true := by
  induction a generalizing b with
  | nil => cases b with
    | nil => exact absurd rfl h
    | cons d ds => left; simp [strLt]
  | cons c cs ih =>
    cases b with
    | nil => right; simp [strLt]
    | cons d ds =>
      by_cases hcd : c = d
      · subst hcd
        have hne : cs ≠ ds := by
          intro hh; exact h (by rw [hh])
        rcases ih hne with h1 | h1
        · left; simpa [strLt] using h1
        · right; simpa [strLt] using h1
      · rcases lt_or_gt_of_ne (show c ≠ d from hcd) with h1 | h1
        · left; simp [strLt, if_neg hcd, h1]
        · right
          have hdc : ¬ d = c := fun hh => hcd hh.symm
          simp [strLt, if_neg hdc, h1]

theorem strLe_refl (a : List Char) : strLe a a := strLt_irrefl a

theorem strLe_of_strLt {a b : List Char} (h : strLt a b = true) : strLe a b :=
  strLt_asymm h

theorem strLe_total (a b : List Char) : strLe a b ∨ strLe b a := by
  by_cases h : a = b
  · subst h; left; exact strLe_refl a
  · rcases strLt_connex h with h1 | h1
    · left; exact strLt_asymm h1
    · right; exact strLt_asymm h1

theorem strLe_trans {a b c : List Char} (hab : strLe a b) (hbc : strLe b c) :
    strLe a c := by
  unfold strLe at hab hbc ⊢
  by_contra hch
  have hca : strLt c a = true := by
    cases hx : strLt c a with
    | false => exact absurd hx hch
    | true => rfl
  by_cases hab' : a = b
  · subst hab'
    exact absurd hca (by simp [hbc])
  · rcases strLt_connex hab' with h1 | h1
    · exact absurd (strLt_trans hca h1) (by simp [hbc])
    · exact absurd h1 (by simp [hab])

theorem strLe_antisymm {a b : List Char} (hab : strLe a b) (hba : strLe b a) :
    a = b := by
  by_contra hne
  rcases strLt_connex hne with h | h
  · exact absurd h (by simpa [strLe] using hba)
  · exact absurd h (by simpa [strLe] using hab)

theorem bubblePass_length (key : α → List Char) (x : α) (l : List α) :
    (bubblePass key x l).2.length = l.length := by
  induction l generalizing x with
  | nil => rfl
  | cons y ys ih =>
    simp only [bubblePass]
    split
    · simp [ih]
    · simp [ih]

theorem exchangeSortFuel_nil (key : α → List Char) (fuel : Nat) :
    exchangeSortFuel key fuel ([] : List α) = [] := by
  cases fuel <;> rfl

theorem exchangeSort_eq_1 (key : α → List Char) :
    exchangeSort key ([] : List α) = [] := rfl

theorem exchangeSort_eq_2 (key : α → List Char) (x : α) (xs : List α) :
    exchangeSort key (x :: xs) =
      (bubblePass key x xs).1 :: exchangeSort key (bubblePass key x xs).2 := by
  show exchangeSortFuel key (x :: xs).length (x :: xs) = _
  rw [List.length_cons]
  rw [show exchangeSortFuel key (xs.length + 1) (x :: xs) =
    (bubblePass key x xs).1 ::
      exchangeSortFuel key xs.length (bubblePass key x xs).2 from rfl]
  rw [exchangeSort, bubblePass_length]

theorem bubblePass_perm (key : α → List Char) (x : α) (l : List α) :
    List.Perm ((bubblePass key x l).1 :: (bubblePass key x l).2) (x :: l) := by
  induction l generalizing x with
  | nil => exact List.Perm.refl _
  | cons y ys ih =>
    simp only [bubblePass]
    split
    · exact List.Perm.trans (List.Perm.swap x _ _) ((ih y).cons x)
    · exact List.Perm.trans (List.Perm.swap y _ _)
        (List.Perm.trans ((ih x).cons y) (List.Perm.swap x y ys))

theorem bubblePass_fst_le (key : α → List Char) (x : α) (l : List α) :
    strLe (key (bubblePass key x l).1) (key x) := by
  induction l generalizing x with
  | nil => exact strLe_refl _
  | cons y ys ih =>
    simp only [bubblePass]
    split
    · rename_i hgt
      exact strLe_trans (ih y) (strLe_of_strLt hgt)
    · exact ih x

theorem bubblePass_fst_min (key : α → List Char) (x : α) (l : List α) :
    ∀ z ∈ (bubblePass key x l).2,
      strLe (key (bubblePass key x l).1) (key z) := by
  induction l generalizing x with
  | nil => intro z hz; simp [bubblePass] at hz
  | cons y ys ih =>
    simp only [bubblePass]
    split
    · rename_i hgt
      intro z hz
      rcases List.mem_cons.mp hz with hz | hz
      · subst hz
        exact strLe_trans (bubblePass_fst_le key y ys)
          (strLe_of_strLt hgt)
      · exact ih y z hz
    · rename_i hgt
      intro z hz
      rcases List.mem_cons.mp hz with hz | hz
      · subst hz
        have hxz : strLe (key x) (key z) := by
          simpa [strGt, strLe] using hgt
        exact strLe_trans (bubblePass_fst_le key x ys) hxz
      · exact ih x z hz

theorem exchangeSort_perm (key : α → List Char) :
    ∀ n (l : List α), l.length ≤ n →
      List.Perm (exchangeSort key l) l := by
  intro n
  induction n with
  | zero =>
    intro l hl
    have : l = [] := List.length_eq_zero.mp (Nat.le_zero.mp hl)
    subst this
    rw [exchangeSort_eq_1]
  | succ n ih =>
    intro l hl
    cases l with
    | nil => rw [exchangeSort_eq_1]
    | cons x xs =>
      rw [exchangeSort_eq_2]
      have hlen : (bubblePass key x xs).2.length ≤ n := by
        rw [bubblePass_length]
        simp only [List.length_cons] at hl
        omega
      exact List.Perm.trans ((ih _ hlen).cons _) (bubblePass_perm key x xs)

/-- `exchangeSort` applied to any list is a permutation of it. -/
theorem exchangeSort_perm' (key : α → List Char) (l : List α) :
    List.Perm (exchangeSort key l) l :=
  exchangeSort_perm key l.length l (Nat.le_refl _)

theorem exchangeSort_sorted (key : α → List Char) :
    ∀ n (l : List α), l.length ≤ n →
      List.Pairwise (fun a b => strLe (key a) (key b)) (exchangeSort key l) := by
  intro n
  induction n with
  | zero =>
    intro l hl
    have : l = [] := List.length_eq_zero.mp (Nat.le_zero.mp hl)
    subst this
    rw [exchangeSort_eq_1]
    exact List.Pairwise.nil
  | succ n ih =>
    intro l hl
    cases l with
    | nil =>
      rw [exchangeSort_eq_1]
      exact List.Pairwise.nil
    | cons x xs =>
      rw [exchangeSort_eq_2]
      have hlen : (bubblePass key x xs).2.length ≤ n := by
        rw [bubblePass_length]
        simp only [List.length_cons] at hl
        omega
      refine List.Pairwise.cons ?_ (ih _ hlen)
      intro b hb
      have hb' : b ∈ (bubblePass key x xs).2 :=
        (exchangeSort_perm key n _ hlen).mem_iff.mp hb
      exact bubblePass_fst_min key x xs b hb'

/-- `exchangeSort` applied to any list is sorted under `strLe` of keys. -/
theorem exchangeSort_sorted' (key : α → List Char) (l : List α) :
    List.Pairwise (fun a b => strLe (key a) (key b)) (exchangeSort key l) :=
  exchangeSort_sorted key l.length l (Nat.le_refl _)

theorem bubblePass_of_min (key : α → List Char) (x : α) (l : List α)
    (h : ∀ y ∈ l, strLe (key x) (key y)) :
    bubblePass key x l = (x, l) := by
  induction l with
  | nil => rfl
  | cons y ys ih =>
    have hxy : strLe (key x) (key y) := h y (List.mem_cons_self _ _)
    have hgt : strGt (key x) (key y) = false := by
      simpa [strGt, strLe] using hxy
    simp only [bubblePass, hgt, Bool.false_eq_true, if_false]
    rw [ih (fun z hz => h z (List.mem_cons_of_mem _ hz))]

/-- A list already sorted under `strLe` of keys is a fixed point of
`exchangeSort`: re-sorting before every listing is stable to repeat. -/
theorem exchangeSort_fixed (key : α → List Char) :
    ∀ n (l : List α), l.length ≤ n →
      List.Pairwise (fun a b => strLe (key a) (key b)) l →
      exchangeSort key l = l := by
  intro n
  induction n with
  | zero =>
    intro l hl _
    have : l = [] := List.length_eq_zero.mp (Nat.le_zero.mp hl)
    subst this
    rw [exchangeSort_eq_1]
  | succ n ih =>
    intro l hl hsorted
    cases l with
    | nil => rw [exchangeSort_eq_1]
    | cons x xs =>
      rw [exchangeSort_eq_2]
      rcases List.pairwise_cons.mp hsorted with ⟨hmin, htail⟩
      rw [bubblePass_of_min key x xs hmin]
      have hlen : xs.length ≤ n := by
        simp only [List.length_cons] at hl
        omega
      rw [ih xs hlen htail]

/-- `exchangeSort` of a sorted list is that list. -/
theorem exchangeSort_fixed' (key : α → List Char) (l : List α)
    (h : List.Pairwise (fun a b => strLe (key a) (key b)) l) :
    exchangeSort key l = l :=
  exchangeSort_fixed key l.length l (Nat.le_refl _) h

theorem trim_newline_eq_self {l : List Char} (h : '\n' ∉ l) :
    trim_newline l = l := by
  induction l with
  | nil => rfl
  | cons c cs ih =>
    have hc : ¬ c = '\n' := fun hh => h (hh ▸ List.mem_cons_self _ _)
    simp only [trim_newline, if_neg hc]
    rw [ih (fun hm => h (List.mem_cons_of_mem _ hm))]

theorem trim_newline_append {l : List Char} (h : '\n' ∉ l) :
    trim_newline (l ++ ['\n']) = l := by
  induction l with
  | nil => rfl
  | cons c cs ih =>
    have hc : ¬ c = '\n' := fun hh => h (hh ▸ List.mem_cons_self _ _)
    simp only [List.cons_append, trim_newline, if_neg hc, List.append_eq]
    rw [ih (fun hm => h (List.mem_cons_of_mem _ hm))]

theorem count_occurrences_eq_zero {s occ : List Char}
    (h : ∀ c ∈ s, c ∉ occ) : count_occurrences s occ = 0 := by
  rw [count_occurrences, List.countP_eq_zero]
  intro c hc
  simpa using h c hc

theorem count_occurrences_append (s t occ : List Char) :
    count_occurrences (s ++ t) occ =
      count_occurrences s occ + count_occurrences t occ :=
  List.countP_append _ _ _

theorem count_occurrences_cons (c : Char) (s occ : List Char) :
    count_occurrences (c :: s) occ =
      count_occurrences s occ + if c ∈ occ then 1 else 0 := by
  rw [count_occurrences, List.countP_cons, count_occurrences]
  by_cases h : c ∈ occ
  · simp [h]
  · simp [h]

theorem is_unsigned_short_digits {a : List Char}
    (h : is_unsigned_short a = true) : ∀ c ∈ a, c.isDigit = true := by
  have hnum : is_numeric a = true := by
    rcases Bool.and_eq_true_iff.mp h with ⟨h1, _⟩
    exact (Bool.and_eq_true_iff.mp h1).1
  intro c hc
  exact List.all_eq_true.mp hnum c hc

theorem is_unsigned_short_ne_nil {a : List Char}
    (h : is_unsigned_short a = true) : a ≠ [] := by
  intro hnil
  subst hnil
  simp [is_unsigned_short, atoiNum] at h

theorem digit_not_colon {c : Char} (h : c.isDigit = true) : c ≠ ':' := by
  intro hc
  subst hc
  simp [Char.isDigit] at h

theorem digit_not_cr {c : Char} (h : c.isDigit = true) : c ≠ '\r' := by
  intro hc
  subst hc
  simp [Char.isDigit] at h

theorem digit_not_lf {c : Char} (h : c.isDigit = true) : c ≠ '\n' := by
  intro hc
  subst hc
  simp [Char.isDigit] at h

theorem takeWhile_no_colon {n : List Char} (h : ':' ∉ n) (t : List Char) :
    (n ++ ':' :: t).takeWhile (fun c => c ≠ ':') = n := by
  induction n with
  | nil => simp [List.takeWhile]
  | cons c cs ih =>
    have hc : c ≠ ':' := fun hh => h (hh ▸ List.mem_cons_self _ _)
    simp only [List.cons_append, List.takeWhile_cons]
    rw [if_pos (by simpa using hc)]
    rw [ih (fun hm => h (List.mem_cons_of_mem _ hm))]

theorem dropWhile_no_colon {n : List Char} (h : ':' ∉ n) (t : List Char) :
    (n ++ ':' :: t).dropWhile (fun c => c ≠ ':') = ':' :: t := by
  induction n with
  | nil => simp [List.dropWhile]
  | cons c cs ih =>
    have hc : c ≠ ':' := fun hh => h (hh ▸ List.mem_cons_self _ _)
    simp only [List.cons_append, List.dropWhile_cons]
    rw [if_pos (by simpa using hc)]
    exact ih (fun hm => h (List.mem_cons_of_mem _ hm))

theorem takeWhile_all_keep {a : List Char}
    (h : ∀ c ∈ a, c ≠ ':') : a.takeWhile (fun c => c ≠ ':') = a := by
  induction a with
  | nil => rfl
  | cons c cs ih =>
    simp only [List.takeWhile_cons]
    rw [if_pos (by simpa using h c (List.mem_cons_self _ _))]
    rw [ih (fun x hx => h x (List.mem_cons_of_mem _ hx))]

/-- Trimming an add line strips exactly the trailing newline. -/
theorem trim_add_line {n a : List Char} (h : wf_add_parts n a) :
    trim_newline (add_line n a) = '!' :: (n ++ ':' :: a) := by
  obtain ⟨_, _, _, hlf, hport⟩ := h
  have hdigits := is_unsigned_short_digits hport
  have : trim_newline (('!' :: (n ++ ':' :: a)) ++ ['\n']) =
      '!' :: (n ++ ':' :: a) := by
    refine trim_newline_append ?_
    intro hm
    rcases List.mem_cons.mp hm with hm | hm
    · exact absurd hm.symm (by decide)
    · rcases List.mem_append.mp hm with hm | hm
      · exact hlf hm
      · rcases List.mem_cons.mp hm with hm | hm
        · exact absurd hm.symm (by decide)
        · exact digit_not_lf (hdigits _ hm) rfl
  simpa [add_line] using this

/-- A well-formed add line is recognised as `ADD_MAPPING`. -/
theorem mapper_command_lexer_add {n a : List Char} (h : wf_add_parts n a) :
    mapper_command_lexer (add_line n a) = MapperCommand.ADD_MAPPING := by
  obtain ⟨hne, hcolon, hcr, hlf, hport⟩ := h
  have hdigits := is_unsigned_short_digits hport
  have hane : a ≠ [] := is_unsigned_short_ne_nil hport
  have htrim := trim_add_line ⟨hne, hcolon, hcr, hlf, hport⟩
  rw [mapper_command_lexer]
  rw [htrim]
  have h1 : ¬ ('!' :: (n ++ ':' :: a) = ['@']) := by
    intro hh
    exact absurd (List.cons.inj hh).1 (by decide)
  have h2 : ¬ (('!' :: (n ++ ':' :: a)).head? = some '?') := by
    simp
  have h3 : ('!' :: (n ++ ':' :: a)).head? = some '!' ∧
      count_occurrences ('!' :: (n ++ ':' :: a)) [':'] = 1 ∧
      3 < ('!' :: (n ++ ':' :: a)).length ∧
      ('!' :: (n ++ ':' :: a)).get? 1 ≠ some ':' ∧
      ('!' :: (n ++ ':' :: a)).getLast? ≠ some ':' ∧
      count_occurrences ('!' :: (n ++ ':' :: a)) ['\r', '\n'] = 0 := by
    refine ⟨rfl, ?_, ?_, ?_, ?_, ?_⟩
    · have hz1 : count_occurrences n [':'] = 0 := by
        refine count_occurrences_eq_zero ?_
        intro c hc hm
        rcases List.mem_cons.mp hm with hm | hm
        · exact hcolon (hm ▸ hc)
        · exact absurd hm (List.not_mem_nil _)
      have hz2 : count_occurrences a [':'] = 0 := by
        refine count_occurrences_eq_zero ?_
        intro c hc hm
        rcases List.mem_cons.mp hm with hm | hm
        · exact digit_not_colon (hdigits c hc) hm
        · exact absurd hm (List.not_mem_nil _)
      rw [count_occurrences_cons, count_occurrences_append,
        count_occurrences_cons, hz1, hz2]
      simp
    · rcases List.exists_cons_of_ne_nil hne with ⟨n0, n', rfl⟩
      rcases List.exists_cons_of_ne_nil hane with ⟨a0, a', rfl⟩
      simp only [List.length_cons, List.length_append]
      omega
    · rcases List.exists_cons_of_ne_nil hne with ⟨n0, n', rfl⟩
      have hn0 : n0 ≠ ':' := fun hh => hcolon (hh ▸ List.mem_cons_self _ _)
      simp only [List.cons_append, List.get?]
      simpa using hn0
    · rcases List.exists_cons_of_ne_nil hane with ⟨a0, a', rfl⟩
      have : ('!' :: (n ++ ':' :: (a0 :: a'))).getLast? =
          (a0 :: a').getLast? := by
        rw [show '!' :: (n ++ ':' :: (a0 :: a')) =
          ('!' :: (n ++ [':'])) ++ (a0 :: a') by simp]
        rw [List.getLast?_append]
        rw [List.getLast?_eq_getLast (a0 :: a') (by simp)]
        rfl
      rw [this]
      have hlast : (a0 :: a').getLast (by simp) ∈ (a0 :: a') :=
        List.getLast_mem _
      rw [List.getLast?_eq_getLast _ (by simp)]
      intro hh
      have : (a0 :: a').getLast (by simp) = ':' := by
        injection hh
      exact digit_not_colon (hdigits _ (this ▸ hlast)) this
    · refine count_occurrences_eq_zero ?_
      intro c hc
      rcases List.mem_cons.mp hc with hc | hc
      · subst hc; decide
      · rcases List.mem_append.mp hc with hc | hc
        · intro hm
          rcases List.mem_cons.mp hm with hm | hm
          · exact hcr (hm ▸ hc)
          · rcases List.mem_cons.mp hm with hm | hm
            · exact hlf (hm ▸ hc)
            · exact absurd hm (List.not_mem_nil _)
        · rcases List.mem_cons.mp hc with hc | hc
          · subst hc; decide
          · have hd := hdigits c hc
            intro hm
            rcases List.mem_cons.mp hm with hm | hm
            · exact digit_not_cr hd hm
            · rcases List.mem_cons.mp hm with hm | hm
              · exact digit_not_lf hd hm
              · exact absurd hm (List.not_mem_nil _)
  rw [if_neg h1, if_neg h2, if_pos h3]

/-- On a well-formed add line, `add_map_entry` inserts `(n, a)` exactly
when `n` is absent, and otherwise changes nothing. -/
theorem add_map_entry_add_line (m : Mapping) {n a : List Char}
    (h : wf_add_parts n a) :
    add_map_entry m ('!' :: (n ++ ':' :: a)) =
      if name_index_in_mapping m n = none then m ++ [⟨n, a⟩] else m := by
  obtain ⟨hne, hcolon, hcr, hlf, hport⟩ := h
  have hdigits := is_unsigned_short_digits hport
  rw [add_map_entry]
  simp only [List.drop_succ_cons, List.drop_zero]
  rw [takeWhile_no_colon hcolon, dropWhile_no_colon hcolon,
    List.drop_succ_cons, List.drop_zero,
    takeWhile_all_keep (fun c hc => digit_not_colon (hdigits c hc))]
  rw [hport]
  simp

/-- Processing a well-formed add line: the table gains `(n, a)` exactly
when `n` was absent, and nothing is written back. -/
theorem mapper_process_add_line (m : Mapping) {n a : List Char}
    (h : wf_add_parts n a) :
    mapper_process m (add_line n a) =
      (if name_index_in_mapping m n = none then m ++ [⟨n, a⟩] else m,
       []) := by
  rw [mapper_process]
  rw [mapper_command_lexer_add h, trim_add_line h]
  rw [add_map_entry_add_line m h]

/-- Trimming a query line strips exactly the trailing newline. -/
theorem trim_query_line {n : List Char} (h : '\n' ∉ n) :
    trim_newline (query_line n) = '?' :: n := by
  have : trim_newline (('?' :: n) ++ ['\n']) = '?' :: n := by
    refine trim_newline_append ?_
    intro hm
    rcases List.mem_cons.mp hm with hm | hm
    · exact absurd hm.symm (by decide)
    · exact h hm
  simpa [query_line] using this

/-- A query line is recognised as `QUERY_MAPPING`. -/
theorem mapper_command_lexer_query {n : List Char} (h : '\n' ∉ n) :
    mapper_command_lexer (query_line n) = MapperCommand.QUERY_MAPPING := by
  rw [mapper_command_lexer]
  rw [trim_query_line h]
  have h1 : ¬ ('?' :: n = ['@']) := by
    intro hh
    exact absurd (List.cons.inj hh).1 (by decide)
  rw [if_neg h1, if_pos (show ('?' :: n).head? = some '?' from rfl)]

/-- Processing a query line reads the table and writes the reply. -/
theorem mapper_process_query_line (m : Mapping) {n : List Char}
    (h : '\n' ∉ n) :
    mapper_process m (query_line n) =
      (m, print_queried_mapping m ('?' :: n)) := by
  rw [mapper_process]
  rw [mapper_command_lexer_query h, trim_query_line h]

/-- A list line is recognised as `LIST_MAPPINGS`. -/
theorem mapper_command_lexer_list :
    mapper_command_lexer list_line = MapperCommand.LIST_MAPPINGS := by
  decide

/-- Processing `@` sorts the table in place and renders it. -/
theorem mapper_process_list (m : Mapping) :
    mapper_process m list_line =
      (sort_mapping m, render_mappings (sort_mapping m)) := by
  rw [mapper_process, mapper_command_lexer_list]
  rfl

/-! ## Properties of `name_index_in_mapping` and the query -/

theorem name_index_none_iff {m : Mapping} {n : List Char} :
    name_index_in_mapping m n = none ↔ ∀ e ∈ m, n ≠ e.airportName := by
  induction m with
  | nil => simp [name_index_in_mapping]
  | cons e rest ih =>
    by_cases he : n = e.airportName
    · simp [name_index_in_mapping, if_pos he, he]
    · simp only [name_index_in_mapping, if_neg he, Option.map_eq_none']
      rw [ih]
      constructor
      · intro hrest x hx
        rcases List.mem_cons.mp hx with hx | hx
        · exact hx ▸ he
        · exact hrest x hx
      · intro hall x hx
        exact hall x (List.mem_cons_of_mem _ hx)

/-- The query output, characterised through `find?`: the first matching
entry's port, or the `;` sentinel. -/
theorem print_queried_mapping_eq_find (m : Mapping) (n : List Char) :
    print_queried_mapping m ('?' :: n) =
      (match m.find? (fun e => decide (n = e.airportName)) with
       | some e => e.portNumber ++ ['\n']
       | none => [';', '\n']) := by
  rw [print_queried_mapping]
  simp only [List.drop_succ_cons, List.drop_zero]
  induction m with
  | nil => rfl
  | cons e rest ih =>
    by_cases he : n = e.airportName
    · simp [name_index_in_mapping, if_pos he, List.find?_cons,
        decide_eq_true he]
    · rw [List.find?_cons]
      rw [show (decide (n = e.airportName)) = false by
        simpa using he]
      simp only [name_index_in_mapping, if_neg he]
      cases hidx : name_index_in_mapping rest n with
      | none =>
        rw [hidx] at ih
        simpa using ih
      | some i =>
        rw [hidx] at ih
        simpa using ih

theorem name_index_append_absent {m : Mapping} {n : List Char}
    (h : name_index_in_mapping m n = none) (e : MapEntry)
    (he : n ≠ e.airportName) :
    name_index_in_mapping (m ++ [e]) n = none := by
  rw [name_index_none_iff] at h ⊢
  intro x hx
  rcases List.mem_append.mp hx with hx | hx
  · exact h x hx
  · rcases List.mem_cons.mp hx with hx | hx
    · exact hx ▸ he
    · exact absurd hx (List.not_mem_nil _)

theorem mapsTo_of_perm {m m' : Mapping} {n a : List Char}
    (hperm : List.Perm m m') (h : MapsTo m n a) : MapsTo m' n a := by
  obtain ⟨hcount, hall⟩ := h
  refine ⟨by rw [← hperm.countP_eq]; exact hcount, ?_⟩
  intro e he
  exact hall e (hperm.mem_iff.mpr he)

theorem mapsTo_mem {m : Mapping} {n a : List Char} (h : MapsTo m n a) :
    ∃ e ∈ m, n = e.airportName := by
  obtain ⟨hcount, _⟩ := h
  have hpos : 0 < m.countP (fun e => decide (n = e.airportName)) := by
    omega
  rcases List.countP_pos_iff.mp hpos with ⟨e, he, hp⟩
  exact ⟨e, he, of_decide_eq_true hp⟩

/-- `add_map_entry` (with any payload) preserves `MapsTo`: a duplicate
name is rejected, a fresh name cannot be `n`. -/
theorem add_map_entry_mapsTo {m : Mapping} {n a : List Char}
    (h : MapsTo m n a) (payload : List Char) :
    MapsTo (add_map_entry m payload) n a := by
  rw [add_map_entry]
  set body := payload.drop 1 with hbody
  set newName := body.takeWhile (fun c => c ≠ ':') with hname
  set newPort :=
    ((body.dropWhile (fun c => c ≠ ':')).drop 1).takeWhile (fun c => c ≠ ':')
    with hport
  by_cases hval : is_unsigned_short newPort = false
  · rw [if_pos hval]; exact h
  · rw [if_neg hval]
    by_cases habs : name_index_in_mapping m newName = none
    · rw [if_pos habs]
      have hnn : n ≠ newName := by
        intro hh
        subst hh
        rcases mapsTo_mem h with ⟨e, he, hname⟩
        exact (name_index_none_iff.mp habs e he) hname
      obtain ⟨hcount, hall⟩ := h
      constructor
      · rw [List.countP_append, hcount]
        simp [hnn]
      · intro e he hne
        rcases List.mem_append.mp he with he | he
        · exact hall e he hne
        · rcases List.mem_cons.mp he with he | he
          · subst he
            exact absurd hne hnn
          · exact absurd he (List.not_mem_nil _)
    · rw [if_neg habs]; exact h

/-- One processed command line preserves `MapsTo`, whatever the line. -/
theorem mapper_process_mapsTo {m : Mapping} {n a : List Char}
    (h : MapsTo m n a) (line : List Char) :
    MapsTo (mapper_process m line).1 n a := by
  rw [mapper_process]
  cases mapper_command_lexer line with
  | LIST_MAPPINGS =>
    exact mapsTo_of_perm (exchangeSort_perm' _ m).symm h
  | QUERY_MAPPING => exact h
  | ADD_MAPPING => exact add_map_entry_mapsTo h _
  | UNKNOWN_COMMAND => exact h

/-- A whole command sequence preserves `MapsTo`. -/
theorem mapper_run_mapsTo {m : Mapping} {n a : List Char}
    (h : MapsTo m n a) (cmds : List (List Char)) :
    MapsTo (mapper_run m cmds) n a := by
  induction cmds generalizing m with
  | nil => exact h
  | cons line rest ih =>
    exact ih (mapper_process_mapsTo h line)

/-- When exactly one entry is named `n`, querying `n` answers its port. -/
theorem print_queried_mapping_of_mapsTo {m : Mapping} {n a : List Char}
    (h : MapsTo m n a) :
    print_queried_mapping m ('?' :: n) = a ++ ['\n'] := by
  rw [print_queried_mapping_eq_find]
  rcases mapsTo_mem h with ⟨e, he, hname⟩
  have hsome : (m.find? (fun e => decide (n = e.airportName))).isSome := by
    rw [List.find?_isSome]
    exact ⟨e, he, decide_eq_true hname⟩
  rcases Option.isSome_iff_exists.mp hsome with ⟨e', he'⟩
  rw [he']
  have hmem : e' ∈ m := List.mem_of_find?_eq_some he'
  have hp0 := List.find?_some he'
  have hpred : n = e'.airportName := of_decide_eq_true (by simpa using hp0)
  have hpn : e'.portNumber = a := h.2 e' hmem hpred
  show e'.portNumber ++ ['\n'] = a ++ ['\n']
  rw [hpn]

/-- One processed command that does not add `n` preserves `Absent`. -/
theorem mapper_process_absent {m : Mapping} {n : List Char}
    (h : Absent m n) (line : List Char) (hline : ¬ AddsName line n) :
    Absent (mapper_process m line).1 n := by
  rw [mapper_process]
  cases hlex : mapper_command_lexer line with
  | LIST_MAPPINGS =>
    intro e he
    exact h e ((exchangeSort_perm' _ m).mem_iff.mp he)
  | QUERY_MAPPING => exact h
  | UNKNOWN_COMMAND => exact h
  | ADD_MAPPING =>
    have hname : add_line_name line ≠ n := fun hh => hline ⟨hlex, hh⟩
    rw [add_map_entry]
    set body := (trim_newline line).drop 1 with hbody
    by_cases hval : is_unsigned_short
        (((body.dropWhile (fun c => c ≠ ':')).drop 1).takeWhile
          (fun c => c ≠ ':')) = false
    · rw [if_pos hval]; exact h
    · rw [if_neg hval]
      by_cases habs : name_index_in_mapping m
          (body.takeWhile (fun c => c ≠ ':')) = none
      · rw [if_pos habs]
        intro e he
        rcases List.mem_append.mp he with he | he
        · exact h e he
        · rcases List.mem_cons.mp he with he | he
          · subst he
            intro hh
            exact hname (by rw [add_line_name, ← hbody, hh])
          · exact absurd he (List.not_mem_nil _)
      · rw [if_neg habs]; exact h

/-- A whole command sequence free of adds of `n` preserves `Absent`. -/
theorem mapper_run_absent {m : Mapping} {n : List Char}
    (h : Absent m n) (cmds : List (List Char))
    (hcmds : ∀ line ∈ cmds, ¬ AddsName line n) :
    Absent (mapper_run m cmds) n := by
  induction cmds generalizing m with
  | nil => exact h
  | cons line rest ih =>
    exact ih (mapper_process_absent h line
        (hcmds line (List.mem_cons_self _ _)))
      (fun l hl => hcmds l (List.mem_cons_of_mem _ hl))

/-- Querying an absent name answers the `;` sentinel. -/
theorem print_queried_mapping_of_absent {m : Mapping} {n : List Char}
    (h : Absent m n) :
    print_queried_mapping m ('?' :: n) = [';', '\n'] := by
  rw [print_queried_mapping_eq_find]
  have : m.find? (fun e => decide (n = e.airportName)) = none := by
    rw [List.find?_eq_none]
    intro e he
    simpa using h e he
  rw [this]

theorem namesNodup_symm :
    Symmetric (fun e1 e2 : MapEntry => e1.airportName ≠ e2.airportName) :=
  fun _ _ h => fun hh => h hh.symm

/-- One processed command preserves `NamesNodup`. -/
theorem mapper_process_namesNodup {m : Mapping} (h : NamesNodup m)
    (line : List Char) : NamesNodup (mapper_process m line).1 := by
  rw [mapper_process]
  cases mapper_command_lexer line with
  | LIST_MAPPINGS =>
    exact ((exchangeSort_perm' _ m).pairwise_iff
      (fun h hh => h hh.symm)).mpr h
  | QUERY_MAPPING => exact h
  | UNKNOWN_COMMAND => exact h
  | ADD_MAPPING =>
    rw [add_map_entry]
    set body := (trim_newline line).drop 1 with hbody
    by_cases hval : is_unsigned_short
        (((body.dropWhile (fun c => c ≠ ':')).drop 1).takeWhile
          (fun c => c ≠ ':')) = false
    · rw [if_pos hval]; exact h
    · rw [if_neg hval]
      by_cases habs : name_index_in_mapping m
          (body.takeWhile (fun c => c ≠ ':')) = none
      · rw [if_pos habs]
        rw [NamesNodup, List.pairwise_append]
        refine ⟨h, List.pairwise_singleton _ _, ?_⟩
        intro e he e' he'
        rcases List.mem_cons.mp he' with he' | he'
        · subst he'
          intro hh
          exact (name_index_none_iff.mp habs e he) hh.symm
        · exact absurd he' (List.not_mem_nil _)
      · rw [if_neg habs]; exact h

/-- A whole command sequence preserves `NamesNodup`. -/
theorem mapper_run_namesNodup {m : Mapping} (h : NamesNodup m)
    (cmds : List (List Char)) : NamesNodup (mapper_run m cmds) := by
  induction cmds generalizing m with
  | nil => exact h
  | cons line rest ih =>
    exact ih (mapper_process_namesNodup h line)

/-! ## Remaining helper lemmas -/

/-- The log reply renders one ID per line and then the `.` line. -/
theorem render_visitors_flatten (l : Visitors) :
    render_visitors l =
      (l.map (fun id => id ++ ['\n'])).flatten ++ ['.', '\n'] := by
  induction l with
  | nil => rfl
  | cons v rest ih =>
    rw [render_visitors, ih]
    simp

/-- A non-strict comparison between different strings is strict. -/
theorem strLt_of_strLe_ne {a b : List Char} (hle : strLe a b) (hne : a ≠ b) :
    strLt a b = true := by
  rcases strLt_connex hne with h | h
  · exact h
  · exact absurd h (by simpa [strLe] using hle)

/-- Appending a fresh name establishes `MapsTo`. -/
theorem mapsTo_append_absent {m : Mapping} {n a : List Char}
    (h : name_index_in_mapping m n = none) :
    MapsTo (m ++ [⟨n, a⟩]) n a := by
  have habs := name_index_none_iff.mp h
  constructor
  · rw [List.countP_append]
    rw [List.countP_eq_zero.mpr (fun e he => by simpa using habs e he)]
    simp
  · intro e he hname
    rcases List.mem_append.mp he with he | he
    · exact absurd hname (habs e he)
    · rcases List.mem_cons.mp he with he | he
      · rw [he]
      · exact absurd he (List.not_mem_nil _)

/-- Processing `log` sorts the log in place and renders it. -/
theorem control_process_log (airportInfo : List Char) (v : Visitors) :
    control_process airportInfo v log_line =
      (sort_visitors v, render_visitors (sort_visitors v)) := rfl

/-- `sort_mapping` permutes the table. -/
theorem sort_mapping_perm (m : Mapping) : List.Perm (sort_mapping m) m :=
  exchangeSort_perm' _ m

/-- `sort_mapping` sorts the table by name. -/
theorem sort_mapping_sorted (m : Mapping) :
    List.Pairwise (fun e1 e2 => strLe e1.airportName e2.airportName)
      (sort_mapping m) :=
  exchangeSort_sorted' _ m

/-- `sort_visitors` permutes the log. -/
theorem sort_visitors_perm (v : Visitors) :
    List.Perm (sort_visitors v) v :=
  exchangeSort_perm' _ v

/-- `sort_visitors` sorts the log. -/
theorem sort_visitors_sorted (v : Visitors) :
    List.Pairwise strLe (sort_visitors v) :=
  exchangeSort_sorted' (fun v => v) v

/-- When some destination needs resolution and gets no reply or the `;`
sentinel, the resolve loop ends with `allResolved == false`. -/
theorem resolve_loop_false
    {queryReply : List Char → Option (List Char)}
    {ds : List (List Char)}
    (h : ∃ d ∈ ds, is_unsigned_short d = false ∧
      (queryReply d = none ∨
        trim_newline ((queryReply d).getD []) = [';'])) :
    (resolve_loop queryReply ds).2 = false := by
  induction ds with
  | nil => simp at h
  | cons d rest ih =>
    rcases h with ⟨w, hw, hwport, hwfail⟩
    rcases List.mem_cons.mp hw with hw | hw
    · subst hw
      rw [resolve_loop]
      rw [if_neg (by simp [hwport])]
      rcases hwfail with hnone | hsent
      · rw [hnone]
      · cases hq : queryReply w with
        | none => rfl
        | some r =>
          rw [hq] at hsent
          simp only [Option.getD_some] at hsent
          simp [hsent]
    · have hrest : (resolve_loop queryReply rest).2 = false :=
        ih ⟨w, hw, hwport, hwfail⟩
      rw [resolve_loop]
      by_cases hd : is_unsigned_short d
      · rw [if_pos hd]
        exact hrest
      · rw [if_neg hd]
        cases hq : queryReply d with
        | none => rfl
        | some r => simp [hrest]

/-- A valid port number string is not the literal `-`. -/
theorem is_unsigned_short_ne_dash {p : List Char}
    (h : is_unsigned_short p = true) : p ≠ ['-'] := by
  intro hh
  subst hh
  simp [is_unsigned_short, is_numeric, Char.isDigit] at h

/-! ## The claims -/

/-- C1: first registration wins forever.  From any table in which the
name `n` is absent, the accepted add `!n:a1` is inserted; after any
further commands, an add `!n:a2` with `a2 ≠ a1`, and again any further
commands, the query `?n` still answers `a1` followed by a newline, and
the table still holds exactly one entry for `n`, which maps to `a1`:
the entry is never overwritten and never deleted. -/
theorem C1_first_registration_wins
    (m0 : Mapping) (n a1 a2 : List Char) (cmds1 cmds2 : List (List Char))
    (habsent : name_index_in_mapping m0 n = none)
    (hwf1 : wf_add_parts n a1) (_hwf2 : wf_add_parts n a2)
    (_hne : a2 ≠ a1) :
    (mapper_process
        (mapper_run
          (mapper_process
            (mapper_run (mapper_process m0 (add_line n a1)).1 cmds1)
            (add_line n a2)).1
          cmds2)
        (query_line n)).2 = a1 ++ ['\n'] ∧
    MapsTo
      (mapper_run
        (mapper_process
          (mapper_run (mapper_process m0 (add_line n a1)).1 cmds1)
          (add_line n a2)).1
        cmds2)
      n a1 := by
  have hlf : '\n' ∉ n := hwf1.2.2.2.1
  have h1 : (mapper_process m0 (add_line n a1)).1 = m0 ++ [⟨n, a1⟩] := by
    rw [mapper_process_add_line m0 hwf1, if_pos habsent]
  have hm1 : MapsTo (mapper_process m0 (add_line n a1)).1 n a1 := by
    rw [h1]
    exact mapsTo_append_absent habsent
  have hm2 := mapper_run_mapsTo hm1 cmds1
  have hm3 := mapper_process_mapsTo hm2 (add_line n a2)
  have hm4 := mapper_run_mapsTo hm3 cmds2
  refine ⟨?_, hm4⟩
  rw [mapper_process_query_line _ hlf]
  exact print_queried_mapping_of_mapsTo hm4

/-- Witness for C1 at concrete inputs: table `[]`, add `A:80`, a list
command, then add `A:81`, a further visit of the listing; the query
still answers `80`. -/
theorem C1_witness :
    (mapper_process
        (mapper_run
          (mapper_process
            (mapper_run (mapper_process [] (add_line ['A'] ['8', '0'])).1
              [list_line])
            (add_line ['A'] ['8', '1'])).1
          [list_line])
        (query_line ['A'])).2 = ['8', '0'] ++ ['\n'] ∧
    MapsTo
      (mapper_run
        (mapper_process
          (mapper_run (mapper_process [] (add_line ['A'] ['8', '0'])).1
            [list_line])
          (add_line ['A'] ['8', '1'])).1
        [list_line])
      ['A'] ['8', '0'] :=
  C1_first_registration_wins [] ['A'] ['8', '0'] ['8', '1']
    [list_line] [list_line] (by decide)
    ⟨by decide, by decide, by decide, by decide, by decide⟩
    ⟨by decide, by decide, by decide, by decide, by decide⟩
    (by decide)

/-- C2: query postcondition.  (i) For every registry table `m` — with
no restriction on whether or where `m` holds the queried name — the
reply to `?n` is the port of the first entry named `n` followed by a
newline when such an entry exists, and exactly the line `;` when no
entry matches; (ii) an accepted `Add(n, a)` (against a table `m0` where
`n` is absent) followed by `Query(n)` answers exactly `a`; (iii) from a
table without `n`, after any commands none of which adds the name `n`,
`Query(n)` still answers exactly `;`. -/
theorem C2_query_postcondition
    (m m0 : Mapping) (n a : List Char) (cmds : List (List Char))
    (hlf : '\n' ∉ n) (hwf : wf_add_parts n a)
    (habsent : name_index_in_mapping m0 n = none)
    (hcmds : ∀ line ∈ cmds, ¬ AddsName line n) :
    ((mapper_process m (query_line n)).2 =
      (match m.find? (fun e => decide (n = e.airportName)) with
       | some e => e.portNumber ++ ['\n']
       | none => [';', '\n'])) ∧
    ((mapper_process (mapper_process m0 (add_line n a)).1
        (query_line n)).2 = a ++ ['\n']) ∧
    ((mapper_process (mapper_run m0 cmds) (query_line n)).2 =
      [';', '\n']) := by
  refine ⟨?_, ?_, ?_⟩
  · rw [mapper_process_query_line _ hlf]
    exact print_queried_mapping_eq_find m n
  · have h1 : (mapper_process m0 (add_line n a)).1 = m0 ++ [⟨n, a⟩] := by
      rw [mapper_process_add_line m0 hwf, if_pos habsent]
    rw [mapper_process_query_line _ hlf, h1]
    exact print_queried_mapping_of_mapsTo (mapsTo_append_absent habsent)
  · rw [mapper_process_query_line _ hlf]
    exact print_queried_mapping_of_absent
      (mapper_run_absent (name_index_none_iff.mp habsent) cmds hcmds)

/-- Witness for C2 at concrete inputs.  Conjunct (i) is applied to the
table `[(B, 70), (A, 42), (C, 43)]`, which holds the queried name `A`
in a middle (non-final) position, so the entry-exists branch of the
first-match characterization is exercised; the add/sentinel conjuncts
run against the table `[(B, 70)]` with name `A`, address `80`, and a
command sequence of a list command and an add of a different name. -/
theorem C2_witness :
    ((mapper_process
        [⟨['B'], ['7', '0']⟩, ⟨['A'], ['4', '2']⟩, ⟨['C'], ['4', '3']⟩]
        (query_line ['A'])).2 =
      (match ([⟨['B'], ['7', '0']⟩, ⟨['A'], ['4', '2']⟩,
            ⟨['C'], ['4', '3']⟩] : Mapping).find?
          (fun e => decide (['A'] = e.airportName)) with
       | some e => e.portNumber ++ ['\n']
       | none => [';', '\n'])) ∧
    ((mapper_process
        (mapper_process [⟨['B'], ['7', '0']⟩] (add_line ['A'] ['8', '0'])).1
        (query_line ['A'])).2 = ['8', '0'] ++ ['\n']) ∧
    ((mapper_process
        (mapper_run [⟨['B'], ['7', '0']⟩] [list_line, add_line ['C'] ['9', '0']])
        (query_line ['A'])).2 = [';', '\n']) :=
  C2_query_postcondition
    [⟨['B'], ['7', '0']⟩, ⟨['A'], ['4', '2']⟩, ⟨['C'], ['4', '3']⟩]
    [⟨['B'], ['7', '0']⟩] ['A'] ['8', '0']
    [list_line, add_line ['C'] ['9', '0']] (by decide)
    ⟨by decide, by decide, by decide, by decide, by decide⟩
    (by decide) (by decide)

/-- C3: log response contents.  For every visit-log state, `log` makes
the node reply with one line per recorded visit — the recorded
clientIDs as a permutation of the whole log, duplicates included — in
ascending lexicographic order, followed by the literal terminator line
`.`. -/
theorem C3_log_response (airportInfo : List Char) (v : Visitors) :
    ((control_process airportInfo v log_line).2 =
      ((sort_visitors v).map (fun id => id ++ ['\n'])).flatten ++
        ['.', '\n']) ∧
    List.Perm (sort_visitors v) v ∧
    List.Pairwise strLe (sort_visitors v) := by
  refine ⟨?_, sort_visitors_perm v, sort_visitors_sorted v⟩
  rw [control_process_log]
  exact render_visitors_flatten _

/-- C4 counterexample: the add line `!a<TAB>b:80` carries an embedded
control character (TAB, code point 9 < 32), yet it is not ignored: it
mutates the table, inserting the name `a<TAB>b`.  The claim that every
add line with embedded control characters leaves the table completely
unchanged is therefore false. -/
theorem C4_counterexample :
    '\t' ∈ trim_newline ['!', 'a', '\t', 'b', ':', '8', '0', '\n'] ∧
    '\t'.toNat < 32 ∧
    (mapper_process [] ['!', 'a', '\t', 'b', ':', '8', '0', '\n']).1 =
      [⟨['a', '\t', 'b'], ['8', '0']⟩] := by
  decide

/-- C4 as amended: a line whose trimmed form starts with `!` never
produces response bytes, and it extends the table — by appending the
payload's name/port split at its colon — exactly when the trimmed line
passes the lexer's shape test (exactly one `:`, length over 3, no `:`
right after the `!` or at the end, and no embedded CR or LF — other
control characters such as TAB are accepted), the port is a valid port
number in `(0, 65535]`, and the name is not yet present; in every other
case the table is left completely unchanged. -/
theorem C4_add_acceptance (m : Mapping) (line : List Char)
    (hbang : (trim_newline line).head? = some '!') :
    (mapper_process m line).2 = [] ∧
    ((mapper_process m line).1 =
        m ++ [⟨add_line_name line,
          ((((trim_newline line).drop 1).dropWhile (fun c => c ≠ ':')).drop
              1).takeWhile (fun c => c ≠ ':')⟩] ∧
      (count_occurrences (trim_newline line) [':'] = 1 ∧
        3 < (trim_newline line).length ∧
        (trim_newline line).get? 1 ≠ some ':' ∧
        (trim_newline line).getLast? ≠ some ':' ∧
        count_occurrences (trim_newline line) ['\r', '\n'] = 0) ∧
      is_unsigned_short
        (((((trim_newline line).drop 1).dropWhile (fun c => c ≠ ':')).drop
            1).takeWhile (fun c => c ≠ ':')) = true ∧
      name_index_in_mapping m (add_line_name line) = none ∨
     (mapper_process m line).1 = m ∧
      ¬ ((count_occurrences (trim_newline line) [':'] = 1 ∧
           3 < (trim_newline line).length ∧
           (trim_newline line).get? 1 ≠ some ':' ∧
           (trim_newline line).getLast? ≠ some ':' ∧
           count_occurrences (trim_newline line) ['\r', '\n'] = 0) ∧
         is_unsigned_short
           (((((trim_newline line).drop 1).dropWhile
               (fun c => c ≠ ':')).drop 1).takeWhile (fun c => c ≠ ':')) =
             true ∧
         name_index_in_mapping m (add_line_name line) = none)) := by
  have hat : ¬ (trim_newline line = ['@']) := by
    intro hh
    rw [hh] at hbang
    exact absurd (Option.some.inj hbang) (by decide)
  have hq : ¬ ((trim_newline line).head? = some '?') := by
    intro hh
    rw [hbang] at hh
    exact absurd (Option.some.inj hh) (by decide)
  by_cases hshape : count_occurrences (trim_newline line) [':'] = 1 ∧
      3 < (trim_newline line).length ∧
      (trim_newline line).get? 1 ≠ some ':' ∧
      (trim_newline line).getLast? ≠ some ':' ∧
      count_occurrences (trim_newline line) ['\r', '\n'] = 0
  · have hlex : mapper_command_lexer line = MapperCommand.ADD_MAPPING := by
      rw [mapper_command_lexer]
      rw [if_neg hat, if_neg hq,
        if_pos ⟨hbang, hshape.1, hshape.2.1, hshape.2.2.1,
          hshape.2.2.2.1, hshape.2.2.2.2⟩]
    rw [mapper_process, hlex]
    rw [add_map_entry]
    by_cases hval : is_unsigned_short
        (((((trim_newline line).drop 1).dropWhile (fun c => c ≠ ':')).drop
            1).takeWhile (fun c => c ≠ ':')) = false
    · rw [if_pos hval]
      exact ⟨rfl, Or.inr ⟨rfl, fun hcontra => by
        rw [hcontra.2.1] at hval
        exact absurd hval (by decide)⟩⟩
    · rw [if_neg hval]
      have hval' : is_unsigned_short
          (((((trim_newline line).drop 1).dropWhile (fun c => c ≠ ':')).drop
              1).takeWhile (fun c => c ≠ ':')) = true := by
        cases hx : is_unsigned_short
            (((((trim_newline line).drop 1).dropWhile
                (fun c => c ≠ ':')).drop 1).takeWhile (fun c => c ≠ ':')) with
        | false => exact absurd hx hval
        | true => rfl
      by_cases habs : name_index_in_mapping m (add_line_name line) = none
      · rw [if_pos (show name_index_in_mapping m
            (((trim_newline line).drop 1).takeWhile (fun c => c ≠ ':')) =
            none from habs)]
        exact ⟨rfl, Or.inl ⟨rfl, hshape, hval', habs⟩⟩
      · rw [if_neg (show ¬ (name_index_in_mapping m
            (((trim_newline line).drop 1).takeWhile (fun c => c ≠ ':')) =
            none) from habs)]
        exact ⟨rfl, Or.inr ⟨rfl, fun hcontra => habs hcontra.2.2⟩⟩
  · have hlex : mapper_command_lexer line = MapperCommand.UNKNOWN_COMMAND := by
      rw [mapper_command_lexer]
      rw [if_neg hat, if_neg hq, if_neg (fun hcontra =>
        hshape ⟨hcontra.2.1, hcontra.2.2.1, hcontra.2.2.2.1,
          hcontra.2.2.2.2.1, hcontra.2.2.2.2.2⟩)]
    rw [mapper_process, hlex]
    exact ⟨rfl, Or.inr ⟨rfl, fun hcontra => hshape hcontra.1⟩⟩

/-- Witness for C4 at a concrete input: the well-formed add `!A:80`
against the empty table. -/
theorem C4_witness :
    (mapper_process [] (add_line ['A'] ['8', '0'])).2 = [] ∧
    ((mapper_process [] (add_line ['A'] ['8', '0'])).1 =
        [] ++ [⟨add_line_name (add_line ['A'] ['8', '0']),
          ((((trim_newline (add_line ['A'] ['8', '0'])).drop 1).dropWhile
              (fun c => c ≠ ':')).drop 1).takeWhile (fun c => c ≠ ':')⟩] ∧
      (count_occurrences (trim_newline (add_line ['A'] ['8', '0'])) [':'] =
          1 ∧
        3 < (trim_newline (add_line ['A'] ['8', '0'])).length ∧
        (trim_newline (add_line ['A'] ['8', '0'])).get? 1 ≠ some ':' ∧
        (trim_newline (add_line ['A'] ['8', '0'])).getLast? ≠ some ':' ∧
        count_occurrences (trim_newline (add_line ['A'] ['8', '0']))
          ['\r', '\n'] = 0) ∧
      is_unsigned_short
        (((((trim_newline (add_line ['A'] ['8', '0'])).drop 1).dropWhile
            (fun c => c ≠ ':')).drop 1).takeWhile (fun c => c ≠ ':')) =
          true ∧
      name_index_in_mapping []
        (add_line_name (add_line ['A'] ['8', '0'])) = none ∨
     (mapper_process [] (add_line ['A'] ['8', '0'])).1 = [] ∧
      ¬ ((count_occurrences (trim_newline (add_line ['A'] ['8', '0']))
            [':'] = 1 ∧
          3 < (trim_newline (add_line ['A'] ['8', '0'])).length ∧
          (trim_newline (add_line ['A'] ['8', '0'])).get? 1 ≠ some ':' ∧
          (trim_newline (add_line ['A'] ['8', '0'])).getLast? ≠ some ':' ∧
          count_occurrences (trim_newline (add_line ['A'] ['8', '0']))
            ['\r', '\n'] = 0) ∧
         is_unsigned_short
           (((((trim_newline (add_line ['A'] ['8', '0'])).drop 1).dropWhile
               (fun c => c ≠ ':')).drop 1).takeWhile (fun c => c ≠ ':')) =
             true ∧
         name_index_in_mapping []
           (add_line_name (add_line ['A'] ['8', '0'])) = none)) :=
  C4_add_acceptance [] (add_line ['A'] ['8', '0']) (by decide)

/-- C5 counterexample: destinations `[50, B, 60]` where `B` needs
resolution and the registry answers the `;` sentinel, while every
destination would accept a connection and reply `i`.  The claim says
the client still visits the remaining destinations, prints the
successful results and reports failure; the code instead aborts with
`ROC_CANNOT_RESOLVE_PORT` before visiting anything and prints no visit
output at all. -/
theorem C5_counterexample :
    roc_main true
      (fun d => if d = ['B'] then some [';', '\n'] else some ['7', '0', '\n'])
      (fun _ => some ['i', '\n'])
      ['9', '0'] [['5', '0'], ['B'], ['6', '0']] =
      ⟨[], RocError.ROC_CANNOT_RESOLVE_PORT⟩ := by
  decide

/-- C5 as amended: when resolution is required and any destination's
registry reply is `;` or missing, the client exits with
`ROC_CANNOT_RESOLVE_PORT` directly after the resolution phase — it
performs no visits and prints nothing; best-effort continuation applies
only to connection failures during the visiting phase. -/
theorem C5_resolution_failure_aborts
    (queryReply : List Char → Option (List Char))
    (visitReply : Nat → Option (List Char))
    (mapperPort : List Char) (destinations : List (List Char))
    (hport : is_unsigned_short mapperPort = true)
    (hfail : ∃ d ∈ destinations, is_unsigned_short d = false ∧
      (queryReply d = none ∨
        trim_newline ((queryReply d).getD []) = [';'])) :
    roc_main true queryReply visitReply mapperPort destinations =
      ⟨[], RocError.ROC_CANNOT_RESOLVE_PORT⟩ := by
  obtain ⟨d, hd, hdport, hdfail⟩ := hfail
  have hreq : destinations.any (fun d => !(is_unsigned_short d)) = true := by
    rw [List.any_eq_true]
    exact ⟨d, hd, by simp [hdport]⟩
  have hloop : (resolve_loop queryReply destinations).2 = false :=
    resolve_loop_false ⟨d, hd, hdport, hdfail⟩
  have hspec : mapperPort ≠ ['-'] := is_unsigned_short_ne_dash hport
  simp [roc_main, hport, hreq, hloop, resolve_destinations, hspec]

/-- Witness for C5 at concrete inputs: the counterexample scenario. -/
theorem C5_witness :
    roc_main true
      (fun d => if d = ['B'] then some [';', '\n'] else some ['7', '0', '\n'])
      (fun _ => some ['i', '\n'])
      ['9', '0'] [['5', '0'], ['B'], ['6', '0']] =
      ⟨[], RocError.ROC_CANNOT_RESOLVE_PORT⟩ :=
  C5_resolution_failure_aborts
    (fun d => if d = ['B'] then some [';', '\n'] else some ['7', '0', '\n'])
    (fun _ => some ['i', '\n'])
    ['9', '0'] [['5', '0'], ['B'], ['6', '0']] (by decide)
    ⟨['B'], by decide, by decide, Or.inr (by decide)⟩

/-- C6: partial-failure traversal.  For destinations `[A, U, B]` that
are all already addresses, where `A` and `B` reply and the connection
to `U` fails, the client prints `A`'s reply line and then `B`'s reply
line in that relative order, prints nothing for the unreachable slot,
and reports `ROC_FAILED_TO_CONNECT`; the failed visit does not abort
the remaining itinerary. -/
theorem C6_partial_failure_traversal
    (mapperConnects : Bool) (queryReply : List Char → Option (List Char))
    (visitReply : Nat → Option (List Char)) (A U B ra rb : List Char)
    (hA : is_unsigned_short A = true) (hU : is_unsigned_short U = true)
    (hB : is_unsigned_short B = true)
    (h0 : visitReply 0 = some ra) (h1 : visitReply 1 = none)
    (h2 : visitReply 2 = some rb) :
    roc_main mapperConnects queryReply visitReply ['-'] [A, U, B] =
      ⟨trim_newline ra ++ ['\n'] ++ (trim_newline rb ++ ['\n']),
       RocError.ROC_FAILED_TO_CONNECT⟩ := by
  have hreq : ([A, U, B].any (fun d => !(is_unsigned_short d))) = false := by
    simp [hA, hU, hB]
  simp [roc_main, hreq, visit_destinations, visit_loop, h0, h1, h2,
    print_destination_info]

/-- Witness for C6 at concrete inputs: ports 50, 51, 52; slot 1
unreachable. -/
theorem C6_witness :
    roc_main true (fun _ => none)
      (fun i => if i = 0 then some ['x', '\n']
                else if i = 2 then some ['y', '\n'] else none)
      ['-'] [['5', '0'], ['5', '1'], ['5', '2']] =
      ⟨trim_newline ['x', '\n'] ++ ['\n'] ++
        (trim_newline ['y', '\n'] ++ ['\n']),
       RocError.ROC_FAILED_TO_CONNECT⟩ :=
  C6_partial_failure_traversal true (fun _ => none)
    (fun i => if i = 0 then some ['x', '\n']
              else if i = 2 then some ['y', '\n'] else none)
    ['5', '0'] ['5', '1'] ['5', '2'] ['x', '\n'] ['y', '\n']
    (by decide) (by decide) (by decide) (by decide) (by decide) (by decide)

/-- C7 counterexample: after the same client ID `X` visits twice, the
log body is the line `X` twice and then `.` — two equal consecutive
clientIDs, so the emitted key sequence is not strictly ascending, which
falsifies the claim's strict-sort invariant for the log. -/
theorem C7_counterexample :
    (control_process ['i'] (control_run ['i'] [] [['X', '\n'], ['X', '\n']])
        log_line).2 =
      ['X', '\n', 'X', '\n', '.', '\n'] ∧
    ¬ List.Pairwise (fun a b => strLt a b = true)
      (sort_visitors (control_run ['i'] [] [['X', '\n'], ['X', '\n']])) := by
  constructor
  · decide
  · decide

/-- C7 as amended: for every table reached from the empty table by any
accepted adds, the List response renders the table sorted in strictly
ascending name order (names are unique); for every visit log, the Log
body is emitted in ascending — non-decreasing, since duplicate
clientIDs are kept — lexicographic order. -/
theorem C7_sort_invariant (cmds : List (List Char)) (airportInfo : List Char)
    (v : Visitors) :
    ((mapper_process (mapper_run [] cmds) list_line).2 =
        render_mappings (sort_mapping (mapper_run [] cmds)) ∧
      List.Pairwise (fun e1 e2 => strLt e1.airportName e2.airportName = true)
        (sort_mapping (mapper_run [] cmds))) ∧
    ((control_process airportInfo v log_line).2 =
        render_visitors (sort_visitors v) ∧
      List.Pairwise strLe (sort_visitors v)) := by
  refine ⟨⟨?_, ?_⟩, ?_, sort_visitors_sorted v⟩
  · rw [mapper_process_list]
  · have hnodup : NamesNodup (mapper_run [] cmds) :=
      mapper_run_namesNodup List.Pairwise.nil cmds
    have hsortnodup : NamesNodup (sort_mapping (mapper_run [] cmds)) :=
      ((sort_mapping_perm _).pairwise_iff (fun h hh => h hh.symm)).mpr hnodup
    have hsorted := sort_mapping_sorted (mapper_run [] cmds)
    exact (hsorted.and hsortnodup).imp
      (fun hab => strLt_of_strLe_ne hab.1 hab.2)
  · rw [control_process_log]

/-- C8 counterexample: for the table whose internal (insertion) order is
`[(B, 2), (A, 1)]`, serving one List command leaves the internal order
changed — the in-place sort reorders it to `[(A, 1), (B, 2)]` — so the
claim that the internal order after the listing equals the order before
it is false. -/
theorem C8_counterexample :
    (mapper_process [⟨['B'], ['2']⟩, ⟨['A'], ['1']⟩] list_line).1 ≠
      [⟨['B'], ['2']⟩, ⟨['A'], ['1']⟩] := by
  decide

/-- C8 as amended: serving a List command presents the entries sorted
lexicographically by name; the sort happens in place, so afterwards the
internal order is the sorted order — a permutation of the previous
contents with no entry added, removed or modified (insertion order is
not preserved) — and repeating the listing leaves the table unchanged
(the sort is stable to repeat). -/
theorem C8_list_frame (m : Mapping) :
    (mapper_process m list_line).1 = sort_mapping m ∧
    List.Perm (sort_mapping m) m ∧
    List.Pairwise (fun e1 e2 => strLe e1.airportName e2.airportName)
      (sort_mapping m) ∧
    (mapper_process (mapper_process m list_line).1 list_line).1 =
      (mapper_process m list_line).1 := by
  refine ⟨by rw [mapper_process_list], sort_mapping_perm m,
    sort_mapping_sorted m, ?_⟩
  rw [mapper_process_list, mapper_process_list]
  show sort_mapping (sort_mapping m) = sort_mapping m
  exact exchangeSort_fixed' _ _ (sort_mapping_sorted m)

/-- C10: implicit fixed-capacity bound.  Both tables are allocated once
with capacity 1000 (`MAX_MAP_ENTRIES` for the registry table,
`MAX_VISITOR_ENTRIES` for the visit log), and neither the registry's
add nor the node's visit record compares the current count against the
capacity before writing at index `entryCount` / `visitorCount`: the
bounds-checked models agree with the unchecked functions below the
capacity, and an accepted mutation's array write lands out of bounds
(`none`) exactly when the table already holds 1000 or more entries —
a visit record always writes, an add writes exactly when its port is
valid and its name absent. -/
theorem C10_capacity_bound (m : Mapping) (v : Visitors)
    (line id : List Char) :
    MAX_MAP_ENTRIES = 1000 ∧ MAX_VISITOR_ENTRIES = 1000 ∧
    (record_visit_checked v id = some (record_visit v id) ↔
      v.length < 1000) ∧
    (record_visit_checked v id = none ↔ 1000 ≤ v.length) ∧
    (add_map_entry_checked m line = none ↔
      (is_unsigned_short
          ((((line.drop 1).dropWhile (fun c => c ≠ ':')).drop 1).takeWhile
            (fun c => c ≠ ':')) = true ∧
        name_index_in_mapping m
          ((line.drop 1).takeWhile (fun c => c ≠ ':')) = none ∧
        1000 ≤ m.length)) ∧
    (add_map_entry_checked m line = some (add_map_entry m line) ∨
      add_map_entry_checked m line = none) := by
  refine ⟨rfl, rfl, ?_, ?_, ?_, ?_⟩
  · rw [record_visit_checked, record_visit]
    by_cases h : v.length < 1000
    · simp [MAX_VISITOR_ENTRIES, h]
    · simp [MAX_VISITOR_ENTRIES, h]
  · rw [record_visit_checked]
    by_cases h : v.length < 1000
    · simp [MAX_VISITOR_ENTRIES, h]
    · simp [MAX_VISITOR_ENTRIES, h]
      omega
  · simp only [add_map_entry_checked]
    by_cases hval : is_unsigned_short
        ((((line.drop 1).dropWhile (fun c => c ≠ ':')).drop 1).takeWhile
          (fun c => c ≠ ':')) = false
    · rw [if_pos hval]
      constructor
      · intro hc
        exact absurd hc (by simp)
      · intro hc
        rw [hc.1] at hval
        exact absurd hval (by decide)
    · have hval' : is_unsigned_short
          ((((line.drop 1).dropWhile (fun c => c ≠ ':')).drop 1).takeWhile
            (fun c => c ≠ ':')) = true := by
        cases hx : is_unsigned_short
            ((((line.drop 1).dropWhile (fun c => c ≠ ':')).drop 1).takeWhile
              (fun c => c ≠ ':')) with
        | false => exact absurd hx hval
        | true => rfl
      rw [if_neg hval]
      by_cases habs : name_index_in_mapping m
          ((line.drop 1).takeWhile (fun c => c ≠ ':')) = none
      · rw [if_pos habs]
        by_cases hlen : m.length < MAX_MAP_ENTRIES
        · rw [if_pos hlen]
          rw [MAX_MAP_ENTRIES] at hlen
          constructor
          · intro hc
            exact absurd hc (by simp)
          · intro hc
            exact absurd hc.2.2 (by omega)
        · rw [if_neg hlen]
          rw [MAX_MAP_ENTRIES] at hlen
          constructor
          · intro _
            exact ⟨hval', habs, by omega⟩
          · intro _
            rfl
      · rw [if_neg habs]
        constructor
        · intro hc
          exact absurd hc (by simp)
        · intro hc
          exact absurd hc.2.1 habs
  · simp only [add_map_entry_checked, add_map_entry]
    by_cases hval : is_unsigned_short
        ((((line.drop 1).dropWhile (fun c => c ≠ ':')).drop 1).takeWhile
          (fun c => c ≠ ':')) = false
    · rw [if_pos hval, if_pos hval]
      exact Or.inl rfl
    · rw [if_neg hval, if_neg hval]
      by_cases habs : name_index_in_mapping m
          ((line.drop 1).takeWhile (fun c => c ≠ ':')) = none
      · rw [if_pos habs, if_pos habs]
        by_cases hlen : m.length < MAX_MAP_ENTRIES
        · rw [if_pos hlen]
          exact Or.inl rfl
        · rw [if_neg hlen]
          exact Or.inr rfl
      · rw [if_neg habs, if_neg habs]
        exact Or.inl rfl

end CSSE2310

